import Mathlib

/-!
Shallow embedding of the motion-planning and frame-assembly code of the
helios_dac Go SDK (sdk/go/examples/dot/main.go, the simple and
advanced-pattern examples under sdk/go/examples/simple, the concurrent
example under sdk/go/examples/concurrent) and of the empty-frame guards
of sdk/go/helios.go.

Modelling conventions:
* Go float64 arithmetic is modelled by exact rational arithmetic over ℚ.
* Go time.Duration values are integer nanosecond counts, modelled by Nat.
* Go conversions that truncate toward zero on nonnegative operands
  (int(x), time.Duration(x), uint16(x)) are modelled by the floor.
* Machine integers are Nat or Int; 12-bit and 16-bit range constraints are
  hypotheses of the theorems that need them.
* math.Cos, math.Sin and math.Pi are not computable over ℚ, so the ring
  generator is parametric in a TrigModel; the theorems that need facts
  about trigonometry assume only that the implementation is bounded by 1
  in absolute value, which holds for float64 cosine and sine.
-/

namespace Helios

/-- Point from sdk/go/helios.go: 12-bit X/Y coordinates carried in a uint16
(range 0 - 4095 per the documented invariant) and 8-bit R, G, B, I color
channels. -/
structure Point where
  X : Nat
  Y : Nat
  R : Nat
  G : Nat
  B : Nat
  I : Nat
deriving DecidableEq, Repr

/-- PointHighRes from sdk/go/helios.go: 12-bit X/Y, 16-bit R, G, B. -/
structure PointHighRes where
  X : Nat
  Y : Nat
  R : Nat
  G : Nat
  B : Nat
deriving DecidableEq, Repr

/-- PointExt from sdk/go/helios.go: all fields 16-bit. -/
structure PointExt where
  X : Nat
  Y : Nat
  R : Nat
  G : Nat
  B : Nat
  I : Nat
  User1 : Nat
  User2 : Nat
  User3 : Nat
  User4 : Nat
deriving DecidableEq, Repr

/-- Go conversion `uint16(x)` of a float64 `x`: truncation toward zero,
reduced modulo 2^16.  For x outside [0, 65535] the Go conversion is
implementation-defined; every use in the embedded examples is nonnegative,
where truncation toward zero coincides with the floor. -/
def toUint16 (x : ℚ) : Nat := (Int.toNat ⌊x⌋) % 65536

/-- Go `uint16(math.Round(x))`: math.Round rounds half away from zero,
which for the nonnegative inputs of the examples is ⌊x + 1/2⌋. -/
def roundUint16 (x : ℚ) : Nat := (Int.toNat ⌊x + 1 / 2⌋) % 65536

/-- Ceiling division on Nat: for 0 < b this is ⌈a / b⌉, the exact value of
Go `int(math.Ceil(float64(a) / float64(b)))` for nonnegative operands. -/
def natCeilDiv (a b : Nat) : Nat := (a + b - 1) / b

/-- Computable ⌊s * √q⌋ for a nonnegative rational q = a/b: since
s·√(a/b) = √(s²ab)/b, its floor is ⌊⌊√(s²ab)⌋ / b⌋ = Nat.sqrt (s²ab) / b.
This gives the exact value that dot/main.go derives from math.Hypot. -/
def floorMulSqrt (s : Nat) (q : ℚ) : Nat :=
  Nat.sqrt (s ^ 2 * q.num.toNat * q.den) / q.den

/-- The inline S-curve easing of getTravelPoints (dot/main.go):
`alpha := t * t * (3.0 - 2.0*t)`. -/
def smoothstep (t : ℚ) : ℚ := t * t * (3 - 2 * t)

/-- stepResponseSmallAngle (dot/main.go), in nanoseconds: 250µs. -/
def stepResponseSmallAngle : Nat := 250000

/-- stepResponseLargeAngle (dot/main.go), in nanoseconds: 1000µs. -/
def stepResponseLargeAngle : Nat := 1000000

/-- galvoFullScale (dot/main.go): 1 << 12 = 4096. -/
def galvoFullScale : Nat := 4096

/-- galvoMaxCoord (dot/main.go): 4095. -/
def galvoMaxCoord : Nat := 4095

/-- The dynamic-latency term of getTravelPoints (dot/main.go):
`time.Duration(float64(stepResponseLargeAngle-stepResponseSmallAngle)*ratio)`
where `ratio := dist / 4096` is clamped at 1.0 and
`dist := math.Hypot(endX-startX, endY-startY)`.  Writing d2 for dist², the
clamp fires iff 4096² < d2, and otherwise the truncating Duration
conversion yields ⌊750000 · √d2 / 4096⌋ = ⌊⌊750000·√d2⌋ / 4096⌋. -/
def travelLatencyNs (startX startY endX endY : ℚ) : Nat :=
  let d2 : ℚ := (endX - startX) ^ 2 + (endY - startY) ^ 2
  if ((galvoFullScale : ℚ)) ^ 2 < d2 then
    stepResponseLargeAngle - stepResponseSmallAngle
  else
    floorMulSqrt (stepResponseLargeAngle - stepResponseSmallAngle) d2 / galvoFullScale

/-- `reqTime` of getTravelPoints in nanoseconds:
`stepResponseSmallAngle + time.Duration(750000µs-span * ratio)`. -/
def travelReqNs (startX startY endX endY : ℚ) : Nat :=
  stepResponseSmallAngle + travelLatencyNs startX startY endX endY

/-- `travelPoints := int(math.Ceil(reqTime.Seconds() * float64(pps)))`
followed by `if travelPoints < 1 { travelPoints = 1 }` (dot/main.go). -/
def travelCount (startX startY endX endY : ℚ) (pps : Nat) : Nat :=
  let n := natCeilDiv (travelReqNs startX startY endX endY * pps) 1000000000
  if n < 1 then 1 else n

/-- `settlePoints := int(math.Ceil(settleTime.Seconds() * float64(pps)))`
with settleTime = 150µs, followed by the minimum-1 floor (dot/main.go). -/
def settleCount (pps : Nat) : Nat :=
  let n := natCeilDiv (150000 * pps) 1000000000
  if n < 1 then 1 else n

/-- The first loop of getTravelPoints (dot/main.go): for k = 1..travelPoints,
t := k/travelPoints, alpha := smoothstep t, emit the blanked point at the
eased interpolation of start and end. -/
def travelTransition (startX startY endX endY : ℚ) (pps : Nat) : List Point :=
  (List.range (travelCount startX startY endX endY pps)).map fun (k : Nat) =>
    let t : ℚ := ((k : ℚ) + 1) / ((travelCount startX startY endX endY pps : Nat) : ℚ)
    let alpha := smoothstep t
    { X := toUint16 (startX + (endX - startX) * alpha)
      Y := toUint16 (startY + (endY - startY) * alpha)
      R := 0, G := 0, B := 0, I := 0 }

/-- The settling-dwell loop of getTravelPoints (dot/main.go): settlePoints
identical blanked points at the end position. -/
def travelSettle (endX endY : ℚ) (pps : Nat) : List Point :=
  List.replicate (settleCount pps)
    { X := toUint16 endX, Y := toUint16 endY, R := 0, G := 0, B := 0, I := 0 }

/-- getTravelPoints (dot/main.go): the blanked transition samples followed
by the blanked settling dwell at the end position. -/
def getTravelPoints (startX startY endX endY : ℚ) (pps : Nat) : List Point :=
  travelTransition startX startY endX endY pps ++ travelSettle endX endY pps

/-- Abstract stand-in for float64 math.Cos / math.Sin / math.Pi, which have
no computable exact counterpart over ℚ.  Theorems that depend on
trigonometry only assume |cos θ| ≤ 1 and |sin θ| ≤ 1, which float64
cosine and sine satisfy. -/
structure TrigModel where
  pi : ℚ
  cos : ℚ → ℚ
  sin : ℚ → ℚ

/-- A concrete placeholder trig implementation, used only to instantiate
theorems and counterexamples at concrete inputs; the facts proved with it
do not depend on the values of pi, cos or sin beyond the bound-by-1
property, which it satisfies. -/
def unitTrig : TrigModel := { pi := 355 / 113, cos := fun _ => 1, sin := fun _ => 0 }

/-- `ringStart.X = uint16(cx + float64(dotRadius))` (getFeaturePoints,
dot/main.go). -/
def ringStartX (cx : ℚ) (dotRadius : ℤ) : Nat := toUint16 (cx + (dotRadius : ℚ))

/-- `ringStart.Y = uint16(cy)` (getFeaturePoints, dot/main.go). -/
def ringStartY (cy : ℚ) : Nat := toUint16 cy

/-- The travel segment of getFeaturePoints (dot/main.go):
`getTravelPoints(cx, cy, float64(ringStart.X), float64(ringStart.Y), pps)`.
Note the end coordinates are the already-uint16-converted ring start. -/
def featureTravel (cx cy : ℚ) (dotRadius : ℤ) (pps : Nat) : List Point :=
  getTravelPoints cx cy ((ringStartX cx dotRadius : Nat) : ℚ)
    ((ringStartY cy : Nat) : ℚ) pps

/-- `ringPts := availableForDrawing - len(travel); if ringPts < 10
{ ringPts = 10 }` (getFeaturePoints, dot/main.go), where
availableForDrawing = pointBudget - 1. -/
def featureRingCount (cx cy : ℚ) (dotRadius : ℤ) (pointBudget : ℤ) (pps : Nat) : Nat :=
  (let ringPts : ℤ :=
    pointBudget - 1 - ((featureTravel cx cy dotRadius pps).length : ℤ)
   if ringPts < 10 then 10 else ringPts).toNat

/-- The ring-drawing loop of getFeaturePoints (dot/main.go): for
i = 1..ringPts, t := i/ringPts, theta := 2·π·t, emit the lit point at
(cx + radius·cos theta, cy + radius·sin theta). -/
def ringPoints (T : TrigModel) (cx cy : ℚ) (dotRadius : ℤ) (ringPts : Nat) : List Point :=
  (List.range ringPts).map fun (i : Nat) =>
    let t : ℚ := ((i : ℚ) + 1) / ((ringPts : Nat) : ℚ)
    let theta : ℚ := 2 * T.pi * t
    { X := toUint16 (cx + (dotRadius : ℚ) * T.cos theta)
      Y := toUint16 (cy + (dotRadius : ℚ) * T.sin theta)
      R := 255, G := 255, B := 255, I := 255 }

/-- getFeaturePoints (dot/main.go): returns the empty frame when
availableForDrawing = pointBudget - 1 is below 10, otherwise the blanked
travel from the center to the ring start followed by the lit ring. -/
def getFeaturePoints (T : TrigModel) (cx cy : ℚ) (dotRadius : ℤ)
    (pointBudget : ℤ) (pps : Nat) : List Point :=
  if pointBudget - 1 < 10 then []
  else
    featureTravel cx cy dotRadius pps ++
      ringPoints T cx cy dotRadius (featureRingCount cx cy dotRadius pointBudget pps)

/-- targetBufferPoints (dot/main.go): 2000. -/
def targetBufferPoints : Nat := 2000

/-- The buffer-padding loop of dot/main.go:
`for len(points) < targetBufferPoints { points = append(points, singleLoop...) }`.
When singleLoop is empty and the target is not yet met the Go loop never
terminates; the first branch returns points in that (never exercised,
out-of-claim) case so that the function is total. -/
def padLoop (singleLoop : List Point) (points : List Point) : List Point :=
  if h : points.length < targetBufferPoints then
    if hs : singleLoop = [] then points
    else padLoop singleLoop (points ++ singleLoop)
  else points
termination_by targetBufferPoints - points.length
decreasing_by
  have hpos : 0 < singleLoop.length := List.length_pos.mpr hs
  simp only [List.length_append]
  omega

/-- The padding step of dot/main.go applied to the compiled frame:
`singleLoop := copy of points` followed by the replication loop. -/
def padPoints (points : List Point) : List Point := padLoop points points

/-- `frameDuration := time.Duration(float64(len(points)) / float64(pps) *
float64(time.Second))` (dot/main.go), in nanoseconds: the truncating
Duration conversion yields ⌊len·10⁹ / pps⌋. -/
def frameDurationNs (len pps : Nat) : Nat := len * 1000000000 / pps

/-- `minReplayInterval := time.Duration(float64(frameDuration) * 0.9)`
(dot/main.go), in nanoseconds: ⌊frameDuration · 9 / 10⌋. -/
def minReplayIntervalNs (len pps : Nat) : Nat := frameDurationNs len pps * 9 / 10

/-- The rate-limited consumer loop of dot/main.go run against an
always-ready device, as a discrete-event system.  The input list holds the
instants (integer nanoseconds, monotone) at which the loop body observes a
ticker event; the Option carries lastWriteTime (none models the zero
time.Time, whose time.Since is astronomically large, so the first tick
always writes).  At each tick the body skips when
`time.Since(lastWriteTime) < minReplayInterval` and otherwise writes the
frame (GetStatus ≡ 1) and records the write time.  The result is the list
of write instants. -/
def consumerWrites (minInterval : Nat) : List Nat → Option Nat → List Nat
  | [], _ => []
  | t :: ts, none => t :: consumerWrites minInterval ts (some t)
  | t :: ts, some lastWrite =>
    if t - lastWrite < minInterval then consumerWrites minInterval ts (some lastWrite)
    else t :: consumerWrites minInterval ts (some t)

/-- The DrainLoop of outputLoop (concurrent/main.go): receive from the
frames channel until it is empty, overwriting currentFrame each time; the
argument list holds the queued frames in FIFO order. -/
def drainLatest : List (List Point) → List Point → List Point
  | [], currentFrame => currentFrame
  | f :: rest, _ => drainLatest rest f

/-- `numPoints := int(float64(PPS) * duration.Seconds())` with the
minimum-1 floor, as computed by GenerateLine (advanced-pattern example,
PPS = 30000); duration is in nanoseconds and int() truncates. -/
def lineNumPoints (durationNs : Nat) : Nat :=
  let n := 30000 * durationNs / 1000000000
  if n < 1 then 1 else n

/-- GenerateLine (advanced-pattern example): numPoints samples linearly
interpolated from start to end with t = i/(numPoints-1), positions rounded
with math.Round, colors copied from the end point when on and left zero
(blanked) otherwise.  When numPoints = 1 the Go code divides 0.0 by 0.0
(NaN); over ℚ the division is total with 0/0 = 0, and no claim concerns
the emitted value in that case, only that the divisor is numPoints-1 = 0. -/
def GenerateLine (start endPt : Point) (durationNs : Nat) (lit : Bool) : List Point :=
  (List.range (lineNumPoints durationNs)).map fun (i : Nat) =>
    let t : ℚ := (i : ℚ) / (((lineNumPoints durationNs - 1 : Nat)) : ℚ)
    let x : ℚ := (start.X : ℚ) + t * ((endPt.X : ℚ) - (start.X : ℚ))
    let y : ℚ := (start.Y : ℚ) + t * ((endPt.Y : ℚ) - (start.Y : ℚ))
    { X := roundUint16 x
      Y := roundUint16 y
      R := if lit then endPt.R else 0
      G := if lit then endPt.G else 0
      B := if lit then endPt.B else 0
      I := if lit then endPt.I else 0 }

/-- `numPoints := int(float64(PPS) * duration.Seconds())` with the
minimum-1 floor, as computed by GenerateDwell (advanced-pattern example,
PPS = 30000). -/
def dwellNumPoints (durationNs : Nat) : Nat :=
  let n := 30000 * durationNs / 1000000000
  if n < 1 then 1 else n

/-- GenerateDwell (advanced-pattern example): numPoints copies of pos,
with the colors zeroed when not on. -/
def GenerateDwell (pos : Point) (durationNs : Nat) (lit : Bool) : List Point :=
  List.replicate (dwellNumPoints durationNs)
    (if lit then pos else { pos with R := 0, G := 0, B := 0, I := 0 })

/-- Modelled from the spec: the sample count `ceil(duration * rate)`
claimed for the dwell generator (spec section 4.3), at the example's fixed
rate PPS = 30000 and duration in nanoseconds.  This is the spec-side
definition compared against the code's dwellNumPoints. -/
def specDwellCeilCount (durationNs : Nat) : Nat :=
  natCeilDiv (30000 * durationNs) 1000000000

/-- The external DAC write calls of sdk/go/helios.go, abstracted over an
arbitrary device-state type σ: each field is the underlying C write call,
returning a status and the next device state. -/
structure DeviceOps (σ : Type) where
  writeFrame : σ → Int → Int → Int → List Point → Int × σ
  writeFrameHighRes : σ → Int → Int → Int → List PointHighRes → Int × σ
  writeFrameExt : σ → Int → Int → Int → List PointExt → Int × σ

/-- WriteFrame (sdk/go/helios.go): `if len(points) == 0 { return 0 }`
before the underlying device write. -/
def WriteFrame {σ : Type} (ops : DeviceOps σ) (dev : σ)
    (deviceIndex pps flags : Int) (points : List Point) : Int × σ :=
  if points.length = 0 then (0, dev)
  else ops.writeFrame dev deviceIndex pps flags points

/-- WriteFrameHighResolution (sdk/go/helios.go): same empty-slice guard. -/
def WriteFrameHighResolution {σ : Type} (ops : DeviceOps σ) (dev : σ)
    (deviceIndex pps flags : Int) (points : List PointHighRes) : Int × σ :=
  if points.length = 0 then (0, dev)
  else ops.writeFrameHighRes dev deviceIndex pps flags points

/-- WriteFrameExtended (sdk/go/helios.go): same empty-slice guard. -/
def WriteFrameExtended {σ : Type} (ops : DeviceOps σ) (dev : σ)
    (deviceIndex pps flags : Int) (points : List PointExt) : Int × σ :=
  if points.length = 0 then (0, dev)
  else ops.writeFrameExt dev deviceIndex pps flags points

/-- A nonnegative rational at most 4095 converts to a coordinate at most
4095. -/
lemma toUint16_le {x : ℚ} (h0 : 0 ≤ x) (h1 : x ≤ 4095) : toUint16 x ≤ 4095 := by
  unfold toUint16
  have hf : ⌊x⌋ ≤ ⌊(4095 : ℚ)⌋ := Int.floor_le_floor h1
  have h4 : ⌊(4095 : ℚ)⌋ = 4095 := by norm_num
  have h0f : 0 ≤ ⌊x⌋ := Int.floor_nonneg.mpr h0
  have ht : (Int.toNat ⌊x⌋) ≤ 4095 := by omega
  exact le_trans (Nat.mod_le _ _) ht

/-- Converting a Nat below 2^16 is the identity. -/
lemma toUint16_natCast (m : Nat) (hm : m < 65536) : toUint16 ((m : ℚ)) = m := by
  unfold toUint16
  rw [Int.floor_natCast]
  simp [Nat.mod_eq_of_lt hm]

/-- Rounding a Nat below 2^16 is the identity. -/
lemma roundUint16_natCast (m : Nat) (hm : m < 65536) : roundUint16 ((m : ℚ)) = m := by
  unfold roundUint16
  have hf : ⌊(m : ℚ) + 1 / 2⌋ = (m : ℤ) := by
    rw [Int.floor_eq_iff]
    constructor
    · push_cast; linarith
    · push_cast; linarith
  rw [hf]
  simp [Nat.mod_eq_of_lt hm]

/-- smoothstep maps [0,1] into the nonnegatives. -/
lemma smoothstep_nonneg {t : ℚ} (h0 : 0 ≤ t) (h1 : t ≤ 1) : 0 ≤ smoothstep t := by
  unfold smoothstep
  nlinarith

/-- smoothstep maps [0,1] below 1. -/
lemma smoothstep_le_one {t : ℚ} (h0 : 0 ≤ t) (h1 : t ≤ 1) : smoothstep t ≤ 1 := by
  unfold smoothstep
  nlinarith [mul_nonneg (sq_nonneg (1 - t)) (by linarith : (0 : ℚ) ≤ 1 + 2 * t)]

/-- The travel transition always has at least one sample. -/
lemma travelCount_pos (startX startY endX endY : ℚ) (pps : Nat) :
    0 < travelCount startX startY endX endY pps := by
  simp only [travelCount]
  split <;> omega

/-- The settling dwell always has at least one sample. -/
lemma settleCount_pos (pps : Nat) : 0 < settleCount pps := by
  simp only [settleCount]
  split <;> omega

/-- The dwell generator always emits at least one sample. -/
lemma dwellNumPoints_pos (durationNs : Nat) : 0 < dwellNumPoints durationNs := by
  simp only [dwellNumPoints]
  split <;> omega

/-- The line generator always emits at least one sample. -/
lemma lineNumPoints_pos (durationNs : Nat) : 0 < lineNumPoints durationNs := by
  simp only [lineNumPoints]
  split <;> omega

/-- C8: the easing function smoothstep(t) = t²(3−2t) satisfies
smoothstep(0) = 0 and smoothstep(1) = 1, is monotone non-decreasing on
[0,1], and satisfies smoothstep(t) = 1 − smoothstep(1−t) on [0,1]. -/
theorem smoothstep_props :
    smoothstep 0 = 0 ∧ smoothstep 1 = 1 ∧
    (∀ t u : ℚ, 0 ≤ t → t ≤ u → u ≤ 1 → smoothstep t ≤ smoothstep u) ∧
    (∀ t : ℚ, 0 ≤ t → t ≤ 1 → smoothstep t = 1 - smoothstep (1 - t)) := by
  refine ⟨by norm_num [smoothstep], by norm_num [smoothstep], ?_, ?_⟩
  · intro t u ht htu hu
    have ht1 : t ≤ 1 := le_trans htu hu
    have hu0 : 0 ≤ u := le_trans ht htu
    have h1 : t * t ≤ t := by nlinarith
    have h2 : u * u ≤ u := by nlinarith
    have h3 : 2 * (t * u) ≤ t * t + u * u := by nlinarith [sq_nonneg (t - u)]
    have hN : 0 ≤ 3 * t + 3 * u - 2 * (t * t) - 2 * (t * u) - 2 * (u * u) := by
      nlinarith
    unfold smoothstep
    nlinarith [mul_nonneg (sub_nonneg.mpr htu) hN]
  · intro t h0 h1
    unfold smoothstep
    ring

/-- Witness for C8 at concrete inputs. -/
theorem smoothstep_props_witness :
    smoothstep (1 / 4) ≤ smoothstep (1 / 2) ∧
    smoothstep (1 / 3) = 1 - smoothstep (1 - 1 / 3) :=
  ⟨smoothstep_props.2.2.1 (1 / 4) (1 / 2) (by norm_num) (by norm_num) (by norm_num),
   smoothstep_props.2.2.2 (1 / 3) (by norm_num) (by norm_num)⟩

/-- C2 (amended): GenerateDwell produces exactly max(1, ⌊duration·rate⌋)
samples — Go int() truncation, not the ceiling — all at the given
position, carrying the given colors when lit and all-zero color
otherwise. -/
theorem generateDwell_spec (pos : Point) (durationNs : Nat) (lit : Bool) :
    (GenerateDwell pos durationNs lit).length = dwellNumPoints durationNs ∧
    1 ≤ (GenerateDwell pos durationNs lit).length ∧
    ∀ p ∈ GenerateDwell pos durationNs lit,
      p.X = pos.X ∧ p.Y = pos.Y ∧
      p.R = (if lit then pos.R else 0) ∧ p.G = (if lit then pos.G else 0) ∧
      p.B = (if lit then pos.B else 0) ∧ p.I = (if lit then pos.I else 0) := by
  refine ⟨by simp [GenerateDwell], ?_, ?_⟩
  · have := dwellNumPoints_pos durationNs
    simp only [GenerateDwell, List.length_replicate]
    omega
  · intro p hp
    rw [GenerateDwell, List.mem_replicate] at hp
    rcases hp with ⟨-, rfl⟩
    cases lit <;> simp

/-- Witness for C2's amended theorem at a concrete dwell. -/
theorem generateDwell_spec_witness :
    (GenerateDwell { X := 1, Y := 2, R := 3, G := 4, B := 5, I := 6 } 1000 false).length
      = dwellNumPoints 1000 ∧
    ({ X := 1, Y := 2, R := 0, G := 0, B := 0, I := 0 } : Point).X
      = ({ X := 1, Y := 2, R := 3, G := 4, B := 5, I := 6 } : Point).X :=
  ⟨(generateDwell_spec { X := 1, Y := 2, R := 3, G := 4, B := 5, I := 6 } 1000 false).1,
   ((generateDwell_spec { X := 1, Y := 2, R := 3, G := 4, B := 5, I := 6 } 1000 false).2.2
     { X := 1, Y := 2, R := 0, G := 0, B := 0, I := 0 } (by decide)).1⟩

/-- Counterexample to C2 as stated: at duration 50µs (50000 ns) and the
example's rate PPS = 30000, duration·rate = 1.5, the code truncates to 1
sample while ceil(duration·rate) = 2. -/
theorem generateDwell_ceil_counterexample :
    (GenerateDwell { X := 100, Y := 200, R := 10, G := 20, B := 30, I := 40 } 50000 true).length
      ≠ max (specDwellCeilCount 50000) 1 := by
  decide

/-- C9: each of WriteFrame, WriteFrameHighResolution and
WriteFrameExtended, called with an empty points slice, returns 0 without
invoking the underlying device write, for every device state, device
index, rate and flags value: the device state comes back unchanged no
matter what the underlying write operations would do. -/
theorem writeFrame_empty_noop {σ : Type} (ops : DeviceOps σ) (dev : σ)
    (deviceIndex pps flags : Int) :
    WriteFrame ops dev deviceIndex pps flags [] = (0, dev) ∧
    WriteFrameHighResolution ops dev deviceIndex pps flags [] = (0, dev) ∧
    WriteFrameExtended ops dev deviceIndex pps flags [] = (0, dev) :=
  ⟨rfl, rfl, rfl⟩

/-- C7: the consumer's drain loop keeps only the most recently produced
frame: for any nonempty queue of frames pending in the hand-off buffer,
the frame the consumer holds for its next write is exactly the last
enqueued one, never an older one. -/
theorem drainLatest_spec (queued : List (List Point)) (currentFrame : List Point)
    (h : queued ≠ []) :
    drainLatest queued currentFrame = queued.getLast h := by
  induction queued generalizing currentFrame with
  | nil => exact absurd rfl h
  | cons f rest ih =>
    cases rest with
    | nil => simp [drainLatest, List.getLast_singleton]
    | cons g rest2 =>
      rw [show drainLatest (f :: g :: rest2) currentFrame
            = drainLatest (g :: rest2) f from rfl]
      rw [ih f (by simp)]
      exact (List.getLast_cons (by simp)).symm

/-- Witness for C7: five frames enqueued, the consumer holds frame 5. -/
theorem drainLatest_spec_witness :
    drainLatest
      [[{ X := 1, Y := 1, R := 0, G := 0, B := 0, I := 0 }],
       [{ X := 2, Y := 2, R := 0, G := 0, B := 0, I := 0 }],
       [{ X := 3, Y := 3, R := 0, G := 0, B := 0, I := 0 }],
       [{ X := 4, Y := 4, R := 0, G := 0, B := 0, I := 0 }],
       [{ X := 5, Y := 5, R := 0, G := 0, B := 0, I := 0 }]]
      [{ X := 0, Y := 0, R := 0, G := 0, B := 0, I := 0 }]
      = [{ X := 5, Y := 5, R := 0, G := 0, B := 0, I := 0 }] := by
  rw [drainLatest_spec _ _ (by simp)]
  rfl

/-- C1: for every start and end position with integer coordinates in
[0,4095] and every rate > 0, getTravelPoints returns the transition
samples followed by the settling samples, with at least one of each
(hence length ≥ 2); every sample (in particular the first) has all four
color channels zero; and every settling sample lies exactly at the end
position. -/
theorem travel_plan_spec (sx sy ex ey : Nat) (pps : Nat)
    (hsx : sx ≤ 4095) (hsy : sy ≤ 4095) (hex : ex ≤ 4095) (hey : ey ≤ 4095)
    (hpps : 0 < pps) :
    getTravelPoints (sx : ℚ) (sy : ℚ) (ex : ℚ) (ey : ℚ) pps
      = travelTransition (sx : ℚ) (sy : ℚ) (ex : ℚ) (ey : ℚ) pps
        ++ travelSettle (ex : ℚ) (ey : ℚ) pps ∧
    1 ≤ (travelTransition (sx : ℚ) (sy : ℚ) (ex : ℚ) (ey : ℚ) pps).length ∧
    1 ≤ (travelSettle (ex : ℚ) (ey : ℚ) pps).length ∧
    2 ≤ (getTravelPoints (sx : ℚ) (sy : ℚ) (ex : ℚ) (ey : ℚ) pps).length ∧
    (∀ p ∈ getTravelPoints (sx : ℚ) (sy : ℚ) (ex : ℚ) (ey : ℚ) pps,
      p.R = 0 ∧ p.G = 0 ∧ p.B = 0 ∧ p.I = 0) ∧
    ∀ p ∈ travelSettle (ex : ℚ) (ey : ℚ) pps, p.X = ex ∧ p.Y = ey := by
  have htc := travelCount_pos (sx : ℚ) (sy : ℚ) (ex : ℚ) (ey : ℚ) pps
  have hsc := settleCount_pos pps
  have hlt : (travelTransition (sx : ℚ) (sy : ℚ) (ex : ℚ) (ey : ℚ) pps).length
      = travelCount (sx : ℚ) (sy : ℚ) (ex : ℚ) (ey : ℚ) pps := by
    rw [travelTransition, List.length_map, List.length_range]
  have hls : (travelSettle (ex : ℚ) (ey : ℚ) pps).length = settleCount pps := by
    rw [travelSettle, List.length_replicate]
  refine ⟨rfl, by omega, by omega, ?_, ?_, ?_⟩
  · have : (getTravelPoints (sx : ℚ) (sy : ℚ) (ex : ℚ) (ey : ℚ) pps).length
        = travelCount (sx : ℚ) (sy : ℚ) (ex : ℚ) (ey : ℚ) pps + settleCount pps := by
      simp [getTravelPoints, travelTransition, travelSettle]
    omega
  · intro p hp
    rw [getTravelPoints, List.mem_append] at hp
    rcases hp with hp | hp
    · rw [travelTransition, List.mem_map] at hp
      obtain ⟨k, -, rfl⟩ := hp
      exact ⟨rfl, rfl, rfl, rfl⟩
    · rw [travelSettle, List.mem_replicate] at hp
      rcases hp with ⟨-, rfl⟩
      exact ⟨rfl, rfl, rfl, rfl⟩
  · intro p hp
    rw [travelSettle, List.mem_replicate] at hp
    rcases hp with ⟨-, rfl⟩
    constructor
    · exact toUint16_natCast ex (by omega)
    · exact toUint16_natCast ey (by omega)

/-- Witness for C1 at a concrete travel plan. -/
theorem travel_plan_spec_witness :
    2 ≤ (getTravelPoints ((0 : Nat) : ℚ) ((0 : Nat) : ℚ) ((100 : Nat) : ℚ)
      ((200 : Nat) : ℚ) 50000).length :=
  (travel_plan_spec 0 0 100 200 50000 (by norm_num) (by norm_num) (by norm_num)
    (by norm_num) (by norm_num)).2.2.2.1

/-- Unfolding equation for the padding loop. -/
lemma padLoop_unfold (singleLoop points : List Point) :
    padLoop singleLoop points =
      if points.length < targetBufferPoints then
        if singleLoop = [] then points
        else padLoop singleLoop (points ++ singleLoop)
      else points := by
  rw [padLoop]
  split
  · split
    · rfl
    · rfl
  · rfl

/-- Every run of the padding loop on a nonempty replication unit appends
some number of whole copies of the unit and stops at or above the target
length. -/
lemma padLoop_replicates (singleLoop : List Point) (hs : singleLoop ≠ []) :
    ∀ (n : Nat) (points : List Point), targetBufferPoints - points.length ≤ n →
      (∃ k, padLoop singleLoop points = points ++ (List.replicate k singleLoop).flatten) ∧
      targetBufferPoints ≤ (padLoop singleLoop points).length := by
  intro n
  induction n with
  | zero =>
    intro points hn
    have hge : ¬ points.length < targetBufferPoints := by omega
    rw [padLoop_unfold, if_neg hge]
    exact ⟨⟨0, by simp⟩, by omega⟩
  | succ n ih =>
    intro points hn
    rw [padLoop_unfold]
    by_cases hlt : points.length < targetBufferPoints
    · rw [if_pos hlt, if_neg hs]
      have hpos : 0 < singleLoop.length := List.length_pos.mpr hs
      obtain ⟨⟨k, hk⟩, hlen⟩ := ih (points ++ singleLoop)
        (by simp only [List.length_append]; omega)
      refine ⟨⟨k + 1, ?_⟩, hlen⟩
      rw [hk, List.replicate_succ, List.flatten_cons, List.append_assoc]
    · rw [if_neg hlt]
      exact ⟨⟨0, by simp⟩, by omega⟩

/-- C4: padding is the identity on frames already at or above the target
buffer size, and on any nonempty shorter frame it terminates having
appended whole end-to-end replicas of the original sequence (the result is
a whole number of copies of the input, never a truncated replica), with
final length at least the target. -/
theorem pad_buffer_spec (points : List Point) :
    (targetBufferPoints ≤ points.length → padPoints points = points) ∧
    (points ≠ [] → ∃ k, 1 ≤ k ∧
      padPoints points = (List.replicate k points).flatten ∧
      targetBufferPoints ≤ (padPoints points).length) := by
  constructor
  · intro h
    rw [padPoints, padLoop_unfold, if_neg (by omega)]
  · intro hne
    obtain ⟨⟨k, hk⟩, hlen⟩ :=
      padLoop_replicates points hne targetBufferPoints points (by omega)
    refine ⟨k + 1, by omega, ?_, ?_⟩
    · rw [padPoints, hk, List.replicate_succ, List.flatten_cons]
    · rw [padPoints]
      exact hlen

/-- Witness for C4: a frame already at the target length is unchanged, and
a one-point frame is padded to whole replicas reaching the target. -/
theorem pad_buffer_spec_witness :
    padPoints (List.replicate 2000 { X := 1, Y := 2, R := 3, G := 4, B := 5, I := 6 })
      = List.replicate 2000 { X := 1, Y := 2, R := 3, G := 4, B := 5, I := 6 } ∧
    ∃ k, 1 ≤ k ∧
      padPoints [{ X := 7, Y := 8, R := 0, G := 0, B := 0, I := 0 }]
        = (List.replicate k [{ X := 7, Y := 8, R := 0, G := 0, B := 0, I := 0 }]).flatten ∧
      targetBufferPoints ≤
        (padPoints [{ X := 7, Y := 8, R := 0, G := 0, B := 0, I := 0 }]).length :=
  ⟨(pad_buffer_spec _).1 (by simp only [List.length_replicate, targetBufferPoints]; omega),
   (pad_buffer_spec _).2 (by simp)⟩

/-- C10: whenever the computed point count (duration·PPS truncated, floored
at 1) is at least 2, GenerateLine's first sample lies at the rounded start
position and its last sample at the rounded end position, with colors
taken from the end point when lit and all zero otherwise; when the count
is exactly 1, the interpolation divisor numPoints - 1 is 0. -/
theorem generateLine_endpoints (s e : Point) (d : Nat) (lit : Bool)
    (hsx : s.X < 65536) (hsy : s.Y < 65536) (hex : e.X < 65536) (hey : e.Y < 65536)
    (h2 : 2 ≤ lineNumPoints d) :
    (GenerateLine s e d lit).head? =
      some { X := s.X, Y := s.Y
             R := if lit then e.R else 0, G := if lit then e.G else 0
             B := if lit then e.B else 0, I := if lit then e.I else 0 } ∧
    (GenerateLine s e d lit).getLast? =
      some { X := e.X, Y := e.Y
             R := if lit then e.R else 0, G := if lit then e.G else 0
             B := if lit then e.B else 0, I := if lit then e.I else 0 } ∧
    (∀ p ∈ GenerateLine s e d lit,
      p.R = (if lit then e.R else 0) ∧ p.G = (if lit then e.G else 0) ∧
      p.B = (if lit then e.B else 0) ∧ p.I = (if lit then e.I else 0)) ∧
    (lineNumPoints d = 1 → lineNumPoints d - 1 = 0) := by
  have h0n : 0 < lineNumPoints d := by omega
  refine ⟨?_, ?_, ?_, fun h => by omega⟩
  · rw [GenerateLine, List.head?_eq_getElem?, List.getElem?_map,
      List.getElem?_range h0n]
    simp only [Option.map_some']
    congr 1
    simp only [Nat.cast_zero, zero_div, zero_mul, add_zero,
      roundUint16_natCast s.X hsx, roundUint16_natCast s.Y hsy]
  · have hlen : (GenerateLine s e d lit).length = lineNumPoints d := by
      rw [GenerateLine, List.length_map, List.length_range]
    rw [List.getLast?_eq_getElem?, hlen, GenerateLine, List.getElem?_map,
      List.getElem?_range (by omega : lineNumPoints d - 1 < lineNumPoints d)]
    simp only [Option.map_some']
    congr 1
    have hne : ((lineNumPoints d - 1 : Nat) : ℚ) ≠ 0 := by
      have : lineNumPoints d - 1 ≠ 0 := by omega
      exact_mod_cast this
    simp only [div_self hne, one_mul, add_sub_cancel,
      roundUint16_natCast e.X hex, roundUint16_natCast e.Y hey]
  · intro p hp
    rw [GenerateLine, List.mem_map] at hp
    obtain ⟨i, -, rfl⟩ := hp
    exact ⟨rfl, rfl, rfl, rfl⟩

/-- Witness for C10 at a concrete 1ms line (30 samples at PPS 30000). -/
theorem generateLine_endpoints_witness :
    (GenerateLine { X := 10, Y := 20, R := 0, G := 0, B := 0, I := 0 }
        { X := 100, Y := 200, R := 1, G := 2, B := 3, I := 4 } 1000000 true).head? =
      some { X := 10, Y := 20, R := 1, G := 2, B := 3, I := 4 } ∧
    (GenerateLine { X := 10, Y := 20, R := 0, G := 0, B := 0, I := 0 }
        { X := 100, Y := 200, R := 1, G := 2, B := 3, I := 4 } 1000000 true).getLast? =
      some { X := 100, Y := 200, R := 1, G := 2, B := 3, I := 4 } :=
  ⟨(generateLine_endpoints _ _ 1000000 true (by decide) (by decide) (by decide)
      (by decide) (by decide)).1,
   (generateLine_endpoints _ _ 1000000 true (by decide) (by decide) (by decide)
      (by decide) (by decide)).2.1⟩

/-- The forced draw-segment floor: the ring count is never below 10. -/
lemma featureRingCount_ge (cx cy : ℚ) (r : ℤ) (budget : ℤ) (pps : Nat) :
    10 ≤ featureRingCount cx cy r budget pps := by
  simp only [featureRingCount]
  split <;> omega

/-- C5: when the point budget is at most 10 (so availableForDrawing =
budget - 1 falls below the 10-sample floor) the compiler returns the
empty frame — the defined degraded result, with no panic since the
function is total; when the budget is at least 11 the frame is the travel
segment followed by a nonempty draw segment; and the draw segment, when
emitted, never has fewer than 10 samples. -/
theorem feature_budget_floor (T : TrigModel) (cx cy : ℚ) (r : ℤ)
    (budget : ℤ) (pps : Nat) :
    (budget ≤ 10 → getFeaturePoints T cx cy r budget pps = []) ∧
    (11 ≤ budget →
      getFeaturePoints T cx cy r budget pps
        = featureTravel cx cy r pps
          ++ ringPoints T cx cy r (featureRingCount cx cy r budget pps) ∧
      ringPoints T cx cy r (featureRingCount cx cy r budget pps) ≠ []) ∧
    10 ≤ featureRingCount cx cy r budget pps := by
  have hcount := featureRingCount_ge cx cy r budget pps
  refine ⟨?_, ?_, hcount⟩
  · intro h
    rw [getFeaturePoints, if_pos (by omega)]
  · intro h
    refine ⟨by rw [getFeaturePoints, if_neg (by omega)], ?_⟩
    apply List.ne_nil_of_length_pos
    rw [ringPoints, List.length_map, List.length_range]
    omega

/-- Witness for C5: budget 10 yields the empty frame, budget 11 yields a
draw segment of at least 10 samples. -/
theorem feature_budget_floor_witness :
    getFeaturePoints unitTrig 2048 2048 84 10 50000 = [] ∧
    10 ≤ featureRingCount 2048 2048 84 11 50000 :=
  ⟨(feature_budget_floor unitTrig 2048 2048 84 10 50000).1 (by norm_num),
   (feature_budget_floor unitTrig 2048 2048 84 11 50000).2.2⟩

/-- All travel samples between two in-range positions stay in range: the
eased interpolation is a convex combination of the endpoints and the
settling samples sit at the end position. -/
lemma travel_coords_in_range (sx sy ex ey : ℚ) (pps : Nat)
    (hsx0 : 0 ≤ sx) (hsx : sx ≤ 4095) (hsy0 : 0 ≤ sy) (hsy : sy ≤ 4095)
    (hex0 : 0 ≤ ex) (hex : ex ≤ 4095) (hey0 : 0 ≤ ey) (hey : ey ≤ 4095) :
    ∀ p ∈ getTravelPoints sx sy ex ey pps, p.X ≤ 4095 ∧ p.Y ≤ 4095 := by
  intro p hp
  rw [getTravelPoints, List.mem_append] at hp
  rcases hp with hp | hp
  · rw [travelTransition, List.mem_map] at hp
    obtain ⟨k, hk, rfl⟩ := hp
    rw [List.mem_range] at hk
    have hn := travelCount_pos sx sy ex ey pps
    dsimp only
    set t : ℚ := ((k : ℚ) + 1) / ((travelCount sx sy ex ey pps : Nat) : ℚ) with hht
    have ht0 : 0 ≤ t := by
      rw [hht]
      positivity
    have ht1 : t ≤ 1 := by
      rw [hht, div_le_one (by exact_mod_cast hn)]
      have hk2 : k + 1 ≤ travelCount sx sy ex ey pps := hk
      exact_mod_cast hk2
    have ha0 := smoothstep_nonneg ht0 ht1
    have ha1 := smoothstep_le_one ht0 ht1
    constructor
    · apply toUint16_le
      · nlinarith [mul_nonneg hex0 ha0,
          mul_nonneg hsx0 (by linarith : (0 : ℚ) ≤ 1 - smoothstep t)]
      · nlinarith [mul_nonneg (by linarith : (0 : ℚ) ≤ 4095 - ex) ha0,
          mul_nonneg (by linarith : (0 : ℚ) ≤ 4095 - sx)
            (by linarith : (0 : ℚ) ≤ 1 - smoothstep t)]
    · apply toUint16_le
      · nlinarith [mul_nonneg hey0 ha0,
          mul_nonneg hsy0 (by linarith : (0 : ℚ) ≤ 1 - smoothstep t)]
      · nlinarith [mul_nonneg (by linarith : (0 : ℚ) ≤ 4095 - ey) ha0,
          mul_nonneg (by linarith : (0 : ℚ) ≤ 4095 - sy)
            (by linarith : (0 : ℚ) ≤ 1 - smoothstep t)]
  · rw [travelSettle, List.mem_replicate] at hp
    rcases hp with ⟨-, rfl⟩
    exact ⟨toUint16_le hex0 hex, toUint16_le hey0 hey⟩

/-- C3 (amended): every sample of the compiled feature frame has X and Y
in [0,4095] provided the center keeps a margin of the radius inside the
galvo range (r ≤ cx ≤ 4095 - r and likewise for cy), for any bounded trig
implementation.  The margin hypothesis is forced by the counterexample: a
center at the edge of [0,4095] emits out-of-range samples because the code
neither clamps nor rejects them. -/
theorem feature_coords_in_range (T : TrigModel) (cx cy : ℚ) (r : ℤ)
    (budget : ℤ) (pps : Nat)
    (hcos : ∀ θ, |T.cos θ| ≤ 1) (hsin : ∀ θ, |T.sin θ| ≤ 1)
    (hr : 0 ≤ (r : ℚ)) (hx1 : (r : ℚ) ≤ cx) (hx2 : cx + (r : ℚ) ≤ 4095)
    (hy1 : (r : ℚ) ≤ cy) (hy2 : cy + (r : ℚ) ≤ 4095) :
    ∀ p ∈ getFeaturePoints T cx cy r budget pps, p.X ≤ 4095 ∧ p.Y ≤ 4095 := by
  intro p hp
  rw [getFeaturePoints] at hp
  split at hp
  · simp at hp
  · rw [List.mem_append] at hp
    have hcx0 : 0 ≤ cx := le_trans hr hx1
    have hcx4 : cx ≤ 4095 := by linarith
    have hcy0 : 0 ≤ cy := le_trans hr hy1
    have hcy4 : cy ≤ 4095 := by linarith
    have hrsx : ((ringStartX cx r : Nat) : ℚ) ≤ 4095 := by
      have h := toUint16_le (x := cx + (r : ℚ)) (by linarith) (by linarith)
      rw [ringStartX]
      exact_mod_cast h
    have hrsy : ((ringStartY cy : Nat) : ℚ) ≤ 4095 := by
      have h := toUint16_le (x := cy) hcy0 hcy4
      rw [ringStartY]
      exact_mod_cast h
    rcases hp with hp | hp
    · rw [featureTravel] at hp
      exact travel_coords_in_range cx cy _ _ pps hcx0 hcx4 hcy0 hcy4
        (by positivity) hrsx (by positivity) hrsy p hp
    · rw [ringPoints, List.mem_map] at hp
      obtain ⟨i, -, rfl⟩ := hp
      dsimp only
      constructor
      · rcases abs_le.mp (hcos (2 * T.pi *
          (((i : ℚ) + 1) / ((featureRingCount cx cy r budget pps : Nat) : ℚ)))) with ⟨hc1, hc2⟩
        apply toUint16_le
        · nlinarith [mul_nonneg hr (by linarith : (0 : ℚ) ≤ T.cos (2 * T.pi *
            (((i : ℚ) + 1) / ((featureRingCount cx cy r budget pps : Nat) : ℚ))) + 1)]
        · nlinarith [mul_nonneg hr (by linarith : (0 : ℚ) ≤ 1 - T.cos (2 * T.pi *
            (((i : ℚ) + 1) / ((featureRingCount cx cy r budget pps : Nat) : ℚ))))]
      · rcases abs_le.mp (hsin (2 * T.pi *
          (((i : ℚ) + 1) / ((featureRingCount cx cy r budget pps : Nat) : ℚ)))) with ⟨hs1, hs2⟩
        apply toUint16_le
        · nlinarith [mul_nonneg hr (by linarith : (0 : ℚ) ≤ T.sin (2 * T.pi *
            (((i : ℚ) + 1) / ((featureRingCount cx cy r budget pps : Nat) : ℚ))) + 1)]
        · nlinarith [mul_nonneg hr (by linarith : (0 : ℚ) ≤ 1 - T.sin (2 * T.pi *
            (((i : ℚ) + 1) / ((featureRingCount cx cy r budget pps : Nat) : ℚ))))]

/-- Witness for C3's amended theorem: a sample of the frame compiled at
center (2048,2048), radius 84 — the travel segment's settling sample at
the ring start (2132, 2048) — is in range. -/
theorem feature_coords_in_range_witness :
    ({ X := 2132, Y := 2048, R := 0, G := 0, B := 0, I := 0 } : Point).X ≤ 4095 ∧
    ({ X := 2132, Y := 2048, R := 0, G := 0, B := 0, I := 0 } : Point).Y ≤ 4095 :=
  feature_coords_in_range unitTrig 2048 2048 84 600 50000
    (fun θ => by simp [unitTrig]) (fun θ => by simp [unitTrig])
    (by norm_num) (by norm_num) (by norm_num) (by norm_num) (by norm_num)
    { X := 2132, Y := 2048, R := 0, G := 0, B := 0, I := 0 }
    (by
      rw [getFeaturePoints, if_neg (by norm_num)]
      apply List.mem_append_left
      have hx : ringStartX (2048 : ℚ) (84 : ℤ) = 2132 := by
        have hfl : ⌊(2048 : ℚ) + ((84 : ℤ) : ℚ)⌋ = 2132 := by norm_num
        rw [ringStartX]
        unfold toUint16
        rw [hfl]
        decide
      have hy : ringStartY (2048 : ℚ) = 2048 := by
        have hfl : ⌊(2048 : ℚ)⌋ = 2048 := by norm_num
        rw [ringStartY]
        unfold toUint16
        rw [hfl]
        decide
      rw [featureTravel, hx, hy, getTravelPoints]
      apply List.mem_append_right
      rw [travelSettle, List.mem_replicate]
      refine ⟨by have := settleCount_pos 50000; omega, ?_⟩
      rw [toUint16_natCast 2132 (by norm_num), toUint16_natCast 2048 (by norm_num)])

/-- Counterexample to C3 as stated: with the center (4095, 2048) — both
coordinates inside [0,4095], exactly what dot/main.go validates — and the
default radius 84, the compiled frame contains the travel settling sample
at the ring start uint16(4095+84) = 4179, whose X coordinate exceeds the
4095 galvo maximum: the code neither clamps nor rejects it before
emission. -/
theorem feature_coords_counterexample :
    ({ X := 4179, Y := 2048, R := 0, G := 0, B := 0, I := 0 } : Point)
      ∈ getFeaturePoints unitTrig 4095 2048 84 600 50000 ∧
    4095 < ({ X := 4179, Y := 2048, R := 0, G := 0, B := 0, I := 0 } : Point).X := by
  refine ⟨?_, by decide⟩
  rw [getFeaturePoints, if_neg (by norm_num)]
  apply List.mem_append_left
  have hx : ringStartX (4095 : ℚ) (84 : ℤ) = 4179 := by
    have hfl : ⌊(4095 : ℚ) + ((84 : ℤ) : ℚ)⌋ = 4179 := by norm_num
    rw [ringStartX]
    unfold toUint16
    rw [hfl]
    decide
  have hy : ringStartY (2048 : ℚ) = 2048 := by
    have hfl : ⌊(2048 : ℚ)⌋ = 2048 := by norm_num
    rw [ringStartY]
    unfold toUint16
    rw [hfl]
    decide
  rw [featureTravel, hx, hy, getTravelPoints]
  apply List.mem_append_right
  rw [travelSettle, List.mem_replicate]
  refine ⟨by have := settleCount_pos 50000; omega, ?_⟩
  rw [toUint16_natCast 4179 (by norm_num), toUint16_natCast 2048 (by norm_num)]

/-- Every write the consumer issues after a recorded write at lw is at
least minInterval later than lw, for monotone tick instants at or after
lw. -/
lemma consumerWrites_lower (minInterval : Nat) :
    ∀ (ts : List Nat) (lw : Nat), List.Pairwise (· ≤ ·) ts →
      (∀ t ∈ ts, lw ≤ t) →
      ∀ w ∈ consumerWrites minInterval ts (some lw), lw + minInterval ≤ w := by
  intro ts
  induction ts with
  | nil => simp [consumerWrites]
  | cons t ts ih =>
    intro lw hsort hge w hw
    simp only [consumerWrites] at hw
    have hlw : lw ≤ t := hge t (by simp)
    have hts : ∀ u ∈ ts, t ≤ u := (List.pairwise_cons.mp hsort).1
    by_cases hskip : t - lw < minInterval
    · rw [if_pos hskip] at hw
      exact ih lw hsort.of_cons (fun u hu => hge u (List.mem_cons_of_mem t hu)) w hw
    · rw [if_neg hskip] at hw
      rcases List.mem_cons.mp hw with rfl | hw2
      · omega
      · have := ih t hsort.of_cons hts w hw2
        omega

/-- Consecutive writes issued from state (some lw) are spaced by at least
minInterval. -/
lemma consumerWrites_spaced (minInterval : Nat) :
    ∀ (ts : List Nat) (lw : Nat), List.Pairwise (· ≤ ·) ts →
      (∀ t ∈ ts, lw ≤ t) →
      List.Chain' (fun a b => minInterval ≤ b - a)
        (consumerWrites minInterval ts (some lw)) := by
  intro ts
  induction ts with
  | nil => simp [consumerWrites]
  | cons t ts ih =>
    intro lw hsort hge
    simp only [consumerWrites]
    have hts : ∀ u ∈ ts, t ≤ u := (List.pairwise_cons.mp hsort).1
    by_cases hskip : t - lw < minInterval
    · rw [if_pos hskip]
      exact ih lw hsort.of_cons (fun u hu => hge u (List.mem_cons_of_mem t hu))
    · rw [if_neg hskip]
      rw [List.chain'_cons']
      refine ⟨?_, ih t hsort.of_cons hts⟩
      intro h hh
      have hmem := List.mem_of_mem_head? hh
      have := consumerWrites_lower minInterval ts t hsort.of_cons hts h hmem
      omega

/-- C6 (amended): over any monotone sequence of tick instants against an
always-ready device, consecutive frame writes of the consumer loop are
never closer than minReplayIntervalNs len pps — the code's truncated
`Duration(0.9 × Duration(len/rate seconds))` — which can fall (by less
than 2 ns) below the exact 0.9 × len/rate of the claim. -/
theorem consumer_min_interval_spec (len pps : Nat) (ticks : List Nat)
    (hsort : List.Pairwise (· ≤ ·) ticks) :
    List.Chain' (fun a b => minReplayIntervalNs len pps ≤ b - a)
      (consumerWrites (minReplayIntervalNs len pps) ticks none) := by
  cases ticks with
  | nil => simp [consumerWrites]
  | cons t ts =>
    simp only [consumerWrites]
    rw [List.chain'_cons']
    have hts : ∀ u ∈ ts, t ≤ u := (List.pairwise_cons.mp hsort).1
    refine ⟨?_, consumerWrites_spaced _ ts t hsort.of_cons hts⟩
    intro h hh
    have hmem := List.mem_of_mem_head? hh
    have := consumerWrites_lower _ ts t hsort.of_cons hts h hmem
    omega

/-- Witness for C6's amended theorem: a 2000-point frame at 50000 pps has
minReplayIntervalNs = 36 ms, and a concrete monotone tick trace yields
writes spaced accordingly. -/
theorem consumer_min_interval_spec_witness :
    List.Chain' (fun a b => minReplayIntervalNs 2000 50000 ≤ b - a)
      (consumerWrites (minReplayIntervalNs 2000 50000)
        [0, 36000000, 50000000, 80000000] none) :=
  consumer_min_interval_spec 2000 50000 [0, 36000000, 50000000, 80000000]
    (by decide)

/-- Counterexample to C6 as stated: for a padded frame of 2003 points at
30000 pps, frameDuration is exactly 2003/30000 s, so 0.9 × frameDuration
is exactly 60090000 ns, but the code's truncated minReplayInterval is
60089999 ns; the admissible execution whose loop body observes ticks at
0 ns and 60089999 ns (the device always ready) writes twice only
60089999 ns apart, which is less than 0.9 × frameDuration. -/
theorem consumer_min_interval_counterexample :
    minReplayIntervalNs 2003 30000 = 60089999 ∧
    List.Pairwise (· ≤ ·) [0, 60089999] ∧
    consumerWrites (minReplayIntervalNs 2003 30000) [0, 60089999] none
      = [0, 60089999] ∧
    ((60089999 : ℚ) - 0) * 30000 < (9 / 10) * ((2003 : ℚ) * 1000000000) := by
  refine ⟨by decide, by decide, by decide, by norm_num⟩

end Helios
